import Mathlib

/-!
# Verification of the Supercon 8 badge calendar EEPROM event store

Shallow embedding of `src/Calendar/Calendar_demo.py` (the canonical copy of
the codec / slot store; `CalendarReset.py` duplicates the same
`save_event_to_eeprom` / `load_event_from_eeprom` logic).

Modelling choices:
* EEPROM memory is a total function `Nat → Nat` from addresses to byte
  values; `i2c.writeto_mem` of a chunk is sequential byte writes;
  `i2c.readfrom_mem` always returns the requested bytes (the `OSError` read
  branches of the Python, which return `None`, are not exercised by the
  properties below, all of which concern content).
* Whether each chunk-level `i2c.writeto_mem` call raises `OSError` is an
  environment choice, modelled by an oracle `Nat → Bool` mapping the chunk
  ordinal (within one `write_bytes_to_eeprom` call) to success.
* Python text fields are modelled by their UTF-8 byte sequences
  (`List Nat`); `str.encode('utf-8')` is the identity on this
  representation and `bytes.decode('utf-8')` is a validity check
  (`utf8Valid`) implementing the UTF-8 well-formedness rules.
* Python prints that a caller could observe are modelled where they matter:
  `write_bytes_to_eeprom` returns the list of its error/status messages
  (`Msg`), and the early-`return` paths of `save_event_to_eeprom` are the
  constructors of `SaveResult`.  An uncaught `OverflowError` raised by
  `int.to_bytes(4, 'big')` is the distinguished result
  `SaveResult.overflowError`.
-/

/-- `EEPROM_SIZE = 4096` from the Python header. -/
def EEPROM_SIZE : Nat := 4096

/-- `PAGE_SIZE = 32` from the Python header. -/
def PAGE_SIZE : Nat := 32

/-- EEPROM contents: a byte value for every address. -/
def Mem : Type := Nat → Nat

/-- Write the bytes of `data` sequentially starting at `address`. -/
def memWrite (m : Mem) (address : Nat) : List Nat → Mem
  | [] => m
  | b :: rest => memWrite (fun a => if a = address then b else m a) (address + 1) rest

/-- `read_bytes_from_eeprom(address, length)` (successful read). -/
def read_bytes_from_eeprom (m : Mem) (address length : Nat) : List Nat :=
  (List.range length).map (fun j => m (address + j))

/-- Caller-observable messages printed by `write_bytes_to_eeprom`. -/
inductive Msg where
  | failedWrite
  | bytesWritten
deriving DecidableEq, Repr

/-- The `while data:` loop of `write_bytes_to_eeprom`: take a `PAGE_SIZE`
chunk, attempt `i2c.writeto_mem`; on `OSError` print the failure and
`break`.  `k` is the ordinal of the current chunk, fed to the oracle.
`fuel` is a structural bound on the number of iterations; each iteration
removes at least one byte from `data`, so the `data.length` supplied by
`write_bytes_to_eeprom` always suffices and the `fuel = 0` exit is never
taken on a nonempty `data`. -/
def writeChunksLoop (oracle : Nat → Bool) :
    Nat → Nat → Mem → Nat → List Nat → Mem × List Msg
  | 0, _, m, _, _ => (m, [])
  | fuel + 1, k, m, address, data =>
    match data with
    | [] => (m, [])
    | b :: rest =>
      let chunk := (b :: rest).take PAGE_SIZE
      if oracle k then
        writeChunksLoop oracle fuel (k + 1) (memWrite m address chunk)
          (address + chunk.length) ((b :: rest).drop PAGE_SIZE)
      else
        (m, [Msg.failedWrite])

/-- `write_bytes_to_eeprom(address, data)`: the chunk loop followed by the
unconditional `"Bytes written to EEPROM successfully."` print. -/
def write_bytes_to_eeprom (oracle : Nat → Bool) (m : Mem) (address : Nat)
    (data : List Nat) : Mem × List Msg :=
  let r := writeChunksLoop oracle data.length 0 m address data
  (r.1, r.2 ++ [Msg.bytesWritten])

/-- A UTF-8 continuation byte (`0x80–0xBF`). -/
def utf8Cont (b : Nat) : Bool := 0x80 ≤ b && b ≤ 0xBF

/-- Constraint on the first continuation byte of a 3-byte sequence whose
lead byte is `b` (excluding overlong forms and surrogates). -/
def utf8Cont3 (b c : Nat) : Bool :=
  if b = 0xE0 then 0xA0 ≤ c && c ≤ 0xBF
  else if b = 0xED then 0x80 ≤ c && c ≤ 0x9F
  else utf8Cont c

/-- Constraint on the first continuation byte of a 4-byte sequence whose
lead byte is `b` (excluding overlong forms and values above U+10FFFF). -/
def utf8Cont4 (b c : Nat) : Bool :=
  if b = 0xF0 then 0x90 ≤ c && c ≤ 0xBF
  else if b = 0xF4 then 0x80 ≤ c && c ≤ 0x8F
  else utf8Cont c

/-- Semantics of Python `bytes.decode('utf-8')` succeeding: the byte list
is well-formed UTF-8. -/
def utf8Valid : List Nat → Bool
  | [] => true
  | b :: rest =>
    if b ≤ 0x7F then utf8Valid rest
    else if b ≤ 0xC1 then false
    else if b ≤ 0xDF then
      match rest with
      | c1 :: r => utf8Cont c1 && utf8Valid r
      | [] => false
    else if b ≤ 0xEF then
      match rest with
      | c1 :: c2 :: r => utf8Cont3 b c1 && utf8Cont c2 && utf8Valid r
      | _ => false
    else if b ≤ 0xF4 then
      match rest with
      | c1 :: c2 :: c3 :: r =>
          utf8Cont4 b c1 && utf8Cont c2 && utf8Cont c3 && utf8Valid r
      | _ => false
    else false

/-- `read_string_from_eeprom(address, length)`: read the bytes and decode
as UTF-8; decode failure gives `None`. -/
def read_string_from_eeprom (m : Mem) (address length : Nat) : Option (List Nat) :=
  let data := read_bytes_from_eeprom m address length
  if utf8Valid data then some data else none

/-- Big-endian value of a byte list (`int.from_bytes(bytes, 'big')`). -/
def fromBytesBE (l : List Nat) : Nat :=
  l.foldl (fun acc b => acc * 256 + b) 0

/-- Big-endian 4-byte encoding of a natural number below `2^32`. -/
def toBytes4 (n : Nat) : List Nat :=
  [n / 16777216 % 256, n / 65536 % 256, n / 256 % 256, n % 256]

/-- Python `int.to_bytes(4, 'big')` on an arbitrary integer: raises
`OverflowError` (here: `none`) outside `[0, 2^32)`. -/
def toBytes4? (t : Int) : Option (List Nat) :=
  if 0 ≤ t ∧ t < 4294967296 then some (toBytes4 t.toNat) else none

/-- Big-endian 2-byte encoding (`len(description_bytes).to_bytes(2, 'big')`). -/
def toBytes2 (n : Nat) : List Nat := [n / 256 % 256, n % 256]

/-- The `Event` class; text fields are carried as their UTF-8 byte
sequences, epoch times as (unbounded) Python integers. -/
structure Event where
  event_name : List Nat
  start_time : Int
  end_time : Int
  speaker_name : List Nat
  description : List Nat
deriving DecidableEq, Repr

/-- The distinguishable outcomes of `save_event_to_eeprom`: one constructor
per early `return` (each guarded by its own printed message), the uncaught
`OverflowError` from `to_bytes`, and the completed path (which prints
`"Event saved successfully."` and whose read-back verification print is
recorded as the Boolean flag). -/
inductive SaveResult where
  | nameTooLong
  | overflowError
  | speakerTooLong
  | descriptionTooLong
  | tooLarge
  | completed (verified : Bool)
deriving DecidableEq, Repr

/-- The serialized byte layout built up in `data` by `save_event_to_eeprom`,
given the already-encoded 4-byte times `st4` and `et4`. -/
def serializeEvent (e : Event) (st4 et4 : List Nat) : List Nat :=
  [e.event_name.length] ++ e.event_name ++ st4 ++ et4 ++
    [e.speaker_name.length] ++ e.speaker_name ++
    toBytes2 e.description.length ++ e.description

/-- `save_event_to_eeprom(event, address)`: validation checks in source
order, serialization, chunked write, and read-back verification. -/
def save_event_to_eeprom (oracle : Nat → Bool) (m : Mem) (e : Event)
    (address : Nat) : Mem × SaveResult :=
  if e.event_name.length > 50 then (m, SaveResult.nameTooLong)
  else
    match toBytes4? e.start_time with
    | none => (m, SaveResult.overflowError)
    | some st4 =>
      match toBytes4? e.end_time with
      | none => (m, SaveResult.overflowError)
      | some et4 =>
        if e.speaker_name.length > 50 then (m, SaveResult.speakerTooLong)
        else if e.description.length > 138 then (m, SaveResult.descriptionTooLong)
        else
          let data := serializeEvent e st4 et4
          if data.length > 250 then (m, SaveResult.tooLarge)
          else
            let m1 := (write_bytes_to_eeprom oracle m address data).1
            let verification := read_bytes_from_eeprom m1 address data.length
            (m1, SaveResult.completed (verification == data))

/-- `load_event_from_eeprom(address)`: sequential reads with validation in
source order; any failed check yields `none`. -/
def load_event_from_eeprom (m : Mem) (address : Nat) : Option Event :=
  let event_name_length := (read_bytes_from_eeprom m address 1).getD 0 0
  if event_name_length = 0xFF then none
  else if event_name_length = 0 ∨ event_name_length > 50 then none
  else
    match read_string_from_eeprom m (address + 1) event_name_length with
    | none => none
    | some event_name =>
      let start_time := fromBytesBE
        (read_bytes_from_eeprom m (address + 1 + event_name_length) 4)
      let end_time := fromBytesBE
        (read_bytes_from_eeprom m (address + 1 + event_name_length + 4) 4)
      let speaker_name_length :=
        (read_bytes_from_eeprom m (address + 1 + event_name_length + 4 + 4) 1).getD 0 0
      if speaker_name_length = 0xFF then none
      else if speaker_name_length = 0 ∨ speaker_name_length > 50 then none
      else
        match read_string_from_eeprom m
            (address + 1 + event_name_length + 4 + 4 + 1) speaker_name_length with
        | none => none
        | some speaker_name =>
          let description_length := fromBytesBE
            (read_bytes_from_eeprom m
              (address + 1 + event_name_length + 4 + 4 + 1 + speaker_name_length) 2)
          if description_length = 0xFFFF then none
          else if description_length = 0 ∨ description_length > 138 then none
          else
            match read_string_from_eeprom m
                (address + 1 + event_name_length + 4 + 4 + 1 + speaker_name_length + 2)
                description_length with
            | none => none
            | some description =>
              some ⟨event_name, (start_time : Int), (end_time : Int),
                speaker_name, description⟩

/-- `list_all_events(start_address, max_events, event_size)`: iterate slot
indices `0..max_events-1` in order, load each, and emit the `(index, event)`
pairs for which a record was decoded. -/
def list_all_events (m : Mem) (start_address max_events event_size : Nat) :
    List (Nat × Event) :=
  (List.range max_events).filterMap (fun i =>
    (load_event_from_eeprom m (start_address + i * event_size)).map (fun e => (i, e)))

/-- The wipe loop of `wipe_eeprom` (after user confirmation): for each
stroke offset `addr = j * PAGE_SIZE` below `EEPROM_SIZE`, write a buffer of
`0xFF` bytes of length `min(PAGE_SIZE, EEPROM_SIZE - addr)` through
`write_bytes_to_eeprom`. -/
def wipe_eeprom (oracle : Nat → Bool) (m : Mem) : Mem :=
  (List.range ((EEPROM_SIZE + PAGE_SIZE - 1) / PAGE_SIZE)).foldl
    (fun mm j =>
      let addr := j * PAGE_SIZE
      let remaining := EEPROM_SIZE - addr
      let chunk_size := if PAGE_SIZE ≤ remaining then PAGE_SIZE else remaining
      (write_bytes_to_eeprom oracle mm addr (List.replicate chunk_size 0xFF)).1)
    m

/-- Fresh-from-factory / fully erased memory: every byte `0xFF`. -/
def memErased : Mem := fun _ => 0xFF

def ceremonyEvent : Event :=
  ⟨[67, 101, 114, 101, 109, 111, 110, 121], 1730649600, 1730653200,
   [69, 108, 108, 105, 111, 116], [66, 97, 100, 103, 101, 115, 33]⟩

def eventA : Event := ⟨[65], 5, 6, [66], [67]⟩

def eventB : Event := ⟨[68], 7, 8, [69], [70]⟩

def demoMem : Mem :=
  (save_event_to_eeprom (fun _ => true)
    (save_event_to_eeprom (fun _ => true) memErased eventA 0).1 eventB 500).1

def exactFitEvent : Event :=
  ⟨List.replicate 50 65, 0, 0, List.replicate 50 66, List.replicate 138 67⟩

def emptyNameEvent : Event := ⟨[], 5, 6, [66], [67]⟩

def longNameEvent : Event := ⟨List.replicate 51 65, 0, 0, [66], [67]⟩

def negTimeEvent : Event := ⟨[65], -1, 0, [66], [67]⟩

theorem memWrite_apply (data : List Nat) : ∀ (m : Mem) (addr a : Nat),
    memWrite m addr data a =
      if addr ≤ a ∧ a - addr < data.length then data.getD (a - addr) 0 else m a := by
  induction data with
  | nil => intro m addr a; simp [memWrite]
  | cons b rest ih =>
    intro m addr a
    rw [memWrite, ih]
    by_cases h1 : addr + 1 ≤ a ∧ a - (addr + 1) < rest.length
    · rw [if_pos h1, if_pos (by simp only [List.length_cons]; omega)]
      have hx : a - addr = (a - (addr + 1)) + 1 := by omega
      rw [hx, List.getD_cons_succ]
    · rw [if_neg h1]
      by_cases h2 : a = addr
      · subst h2
        rw [if_pos (by simp)]
        simp [List.getD_cons_zero]
      · rw [if_neg h2, if_neg (show ¬(addr ≤ a ∧ a - addr < (b :: rest).length) by
          simp only [List.length_cons]; omega)]

theorem memWrite_append (l1 l2 : List Nat) : ∀ (m : Mem) (addr : Nat),
    memWrite m addr (l1 ++ l2) = memWrite (memWrite m addr l1) (addr + l1.length) l2 := by
  induction l1 with
  | nil => intro m addr; simp [memWrite]
  | cons b rest ih =>
    intro m addr
    show memWrite _ (addr + 1) (rest ++ l2) = _
    rw [ih]
    have hx : addr + 1 + rest.length = addr + (rest.length + 1) := by omega
    rw [hx]
    rfl

theorem read_bytes_length (m : Mem) (addr len : Nat) :
    (read_bytes_from_eeprom m addr len).length = len := by
  simp [read_bytes_from_eeprom]

theorem read_seg (m : Mem) (addr : Nat) (pre seg post : List Nat) :
    read_bytes_from_eeprom (memWrite m addr (pre ++ (seg ++ post)))
      (addr + pre.length) seg.length = seg := by
  apply List.ext_getElem
  · simp [read_bytes_from_eeprom]
  · intro i h1 h2
    simp only [read_bytes_from_eeprom, List.getElem_map, List.getElem_range]
    rw [memWrite_apply]
    rw [if_pos (by constructor <;> [omega; (simp; omega)])]
    have hx : addr + pre.length + i - addr = pre.length + i := by omega
    rw [hx]
    rw [List.getD_eq_getElem?_getD]
    rw [List.getElem?_append_right (by omega)]
    have hy : pre.length + i - pre.length = i := by omega
    rw [hy]
    rw [List.getElem?_append_left (by simpa [read_bytes_from_eeprom] using h2)]
    simp [List.getElem?_eq_getElem, (by simpa [read_bytes_from_eeprom] using h2 : i < seg.length)]

theorem writeChunksLoop_true : ∀ (fuel : Nat) (data : List Nat), data.length ≤ fuel →
    ∀ (k : Nat) (m : Mem) (addr : Nat),
      writeChunksLoop (fun _ => true) fuel k m addr data = (memWrite m addr data, []) := by
  intro fuel
  induction fuel with
  | zero =>
    intro data hd k m addr
    have : data = [] := List.length_eq_zero.mp (Nat.le_zero.mp hd)
    subst this
    rfl
  | succ fuel ih =>
    intro data hd k m addr
    match data with
    | [] => rfl
    | b :: rest =>
      rw [writeChunksLoop]
      simp only [if_pos rfl]
      rw [ih ((b :: rest).drop PAGE_SIZE) (by simp [List.length_cons, PAGE_SIZE] at hd ⊢; omega)]
      rw [← memWrite_append, List.take_append_drop]
      simp

theorem write_bytes_true (m : Mem) (addr : Nat) (data : List Nat) :
    write_bytes_to_eeprom (fun _ => true) m addr data
      = (memWrite m addr data, [Msg.bytesWritten]) := by
  rw [write_bytes_to_eeprom, writeChunksLoop_true data.length data (Nat.le_refl _)]
  rfl

theorem fromBytesBE_toBytes4 (n : Nat) (h : n < 4294967296) :
    fromBytesBE (toBytes4 n) = n := by
  simp [fromBytesBE, toBytes4, List.foldl]
  omega

theorem fromBytesBE_toBytes2 (n : Nat) (h : n < 65536) :
    fromBytesBE (toBytes2 n) = n := by
  simp [fromBytesBE, toBytes2, List.foldl]
  omega

theorem read_one (m : Mem) (addr : Nat) :
    read_bytes_from_eeprom m addr 1 = [m addr] := by
  simp [read_bytes_from_eeprom, List.range_succ]

theorem toBytes2_length (n : Nat) : (toBytes2 n).length = 2 := rfl

theorem toBytes4_length (n : Nat) : (toBytes4 n).length = 4 := rfl

theorem toBytes4_some (t : Int) (h0 : 0 ≤ t) (h1 : t < 4294967296) :
    toBytes4? t = some (toBytes4 t.toNat) := by
  rw [toBytes4?, if_pos ⟨h0, h1⟩]

theorem read_seg_at (m : Mem) (addr a len : Nat) (pre seg post full : List Nat)
    (hfull : pre ++ (seg ++ post) = full)
    (ha : a = addr + pre.length) (hl : len = seg.length) :
    read_bytes_from_eeprom (memWrite m addr full) a len = seg := by
  subst hfull
  subst ha
  subst hl
  exact read_seg m addr pre seg post

theorem load_of_memWrite_cases (m : Mem) (address : Nat)
    (name st4 et4 speaker desc : List Nat)
    (hn2 : name.length ≤ 50) (hnv : utf8Valid name = true)
    (hst : st4.length = 4) (het : et4.length = 4)
    (hs2 : speaker.length ≤ 50) (hsv : utf8Valid speaker = true)
    (hd2 : desc.length ≤ 138) (hdv : utf8Valid desc = true) :
    load_event_from_eeprom
      (memWrite m address
        ([name.length] ++ (name ++ (st4 ++ (et4 ++
          ([speaker.length] ++ (speaker ++ (toBytes2 desc.length ++ desc))))))))
      address
    = if name.length = 0 ∨ speaker.length = 0 ∨ desc.length = 0 then none
      else some ⟨name, (fromBytesBE st4 : Int), (fromBytesBE et4 : Int), speaker, desc⟩ := by
  set M := memWrite m address
    ([name.length] ++ (name ++ (st4 ++ (et4 ++
      ([speaker.length] ++ (speaker ++ (toBytes2 desc.length ++ desc))))))) with hM
  have r0 : read_bytes_from_eeprom M address 1 = [name.length] :=
    read_seg_at m address address 1 [] [name.length] _ _ rfl (by simp) (by simp)
  have r1 : read_bytes_from_eeprom M (address + 1) name.length = name :=
    read_seg_at m address (address + 1) name.length [name.length] name _ _ rfl
      (by simp) rfl
  have r2 : read_bytes_from_eeprom M (address + 1 + name.length) 4 = st4 :=
    read_seg_at m address (address + 1 + name.length) 4
      ([name.length] ++ name) st4
      (et4 ++ ([speaker.length] ++ (speaker ++ (toBytes2 desc.length ++ desc)))) _ (by simp)
      (by simp only [List.length_append, List.length_cons, List.length_nil]; omega)
      hst.symm
  have r3 : read_bytes_from_eeprom M (address + 1 + name.length + 4) 4 = et4 :=
    read_seg_at m address (address + 1 + name.length + 4) 4
      ([name.length] ++ (name ++ st4)) et4
      ([speaker.length] ++ (speaker ++ (toBytes2 desc.length ++ desc))) _ (by simp)
      (by simp only [List.length_append, List.length_cons, List.length_nil]; omega)
      het.symm
  have r4 : read_bytes_from_eeprom M (address + 1 + name.length + 4 + 4) 1
      = [speaker.length] :=
    read_seg_at m address (address + 1 + name.length + 4 + 4) 1
      ([name.length] ++ (name ++ (st4 ++ et4))) [speaker.length]
      (speaker ++ (toBytes2 desc.length ++ desc)) _ (by simp)
      (by simp only [List.length_append, List.length_cons, List.length_nil]; omega)
      (by simp)
  have r5 : read_bytes_from_eeprom M (address + 1 + name.length + 4 + 4 + 1)
      speaker.length = speaker :=
    read_seg_at m address (address + 1 + name.length + 4 + 4 + 1) speaker.length
      ([name.length] ++ (name ++ (st4 ++ (et4 ++ [speaker.length])))) speaker
      (toBytes2 desc.length ++ desc) _ (by simp)
      (by simp only [List.length_append, List.length_cons, List.length_nil]; omega)
      rfl
  have r6 : read_bytes_from_eeprom M
      (address + 1 + name.length + 4 + 4 + 1 + speaker.length) 2
      = toBytes2 desc.length :=
    read_seg_at m address (address + 1 + name.length + 4 + 4 + 1 + speaker.length) 2
      ([name.length] ++ (name ++ (st4 ++ (et4 ++ ([speaker.length] ++ speaker)))))
      (toBytes2 desc.length) desc _ (by simp)
      (by simp only [List.length_append, List.length_cons, List.length_nil]; omega)
      rfl
  have r7 : read_bytes_from_eeprom M
      (address + 1 + name.length + 4 + 4 + 1 + speaker.length + 2) desc.length
      = desc :=
    read_seg_at m address
      (address + 1 + name.length + 4 + 4 + 1 + speaker.length + 2) desc.length
      ([name.length] ++ (name ++ (st4 ++ (et4 ++
        ([speaker.length] ++ (speaker ++ toBytes2 desc.length)))))) desc [] _ (by simp)
      (by simp only [List.length_append, List.length_cons, List.length_nil,
        toBytes2_length]; omega)
      rfl
  have c1 : (name.length = 255) = False := eq_false (by omega)
  have c3 : (speaker.length = 255) = False := eq_false (by omega)
  have c5 : fromBytesBE (toBytes2 desc.length) = desc.length :=
    fromBytesBE_toBytes2 desc.length (by omega)
  have c6 : (desc.length = 65535) = False := eq_false (by omega)
  by_cases hz1 : name.length = 0
  · rw [if_pos (Or.inl hz1)]
    simp only [load_event_from_eeprom, r0, List.getD_cons_zero, c1, if_false, hz1]
    simp
  · have c2 : (name.length = 0 ∨ name.length > 50) = False := eq_false (by omega)
    by_cases hz2 : speaker.length = 0
    · rw [if_pos (Or.inr (Or.inl hz2))]
      simp only [load_event_from_eeprom, read_string_from_eeprom, r0, r1, r4,
        List.getD_cons_zero, c1, c2, if_false, hnv, if_true, c3, hz2]
      simp
    · have c4 : (speaker.length = 0 ∨ speaker.length > 50) = False := eq_false (by omega)
      by_cases hz3 : desc.length = 0
      · rw [if_pos (Or.inr (Or.inr hz3))]
        simp only [load_event_from_eeprom, read_string_from_eeprom, r0, r1, r4, r5, r6,
          List.getD_cons_zero, c1, c2, c3, c4, c5, c6, if_false, hnv, hsv, if_true, hz3]
        simp [fromBytesBE, toBytes2]
      · have c7 : (desc.length = 0 ∨ desc.length > 138) = False := eq_false (by omega)
        rw [if_neg (by omega)]
        simp only [load_event_from_eeprom, read_string_from_eeprom, r0, r1, r2, r3, r4,
          r5, r6, r7, hnv, hsv, hdv, List.getD_cons_zero, c1, c2, c3, c4, c5, c6, c7,
          if_false, if_true, ite_false, ite_true]

theorem load_of_memWrite (m : Mem) (address : Nat)
    (name st4 et4 speaker desc : List Nat)
    (hn1 : name.length ≠ 0) (hn2 : name.length ≤ 50) (hnv : utf8Valid name = true)
    (hst : st4.length = 4) (het : et4.length = 4)
    (hs1 : speaker.length ≠ 0) (hs2 : speaker.length ≤ 50) (hsv : utf8Valid speaker = true)
    (hd1 : desc.length ≠ 0) (hd2 : desc.length ≤ 138) (hdv : utf8Valid desc = true) :
    load_event_from_eeprom
      (memWrite m address
        ([name.length] ++ (name ++ (st4 ++ (et4 ++
          ([speaker.length] ++ (speaker ++ (toBytes2 desc.length ++ desc))))))))
      address
    = some ⟨name, (fromBytesBE st4 : Int), (fromBytesBE et4 : Int), speaker, desc⟩ := by
  rw [load_of_memWrite_cases m address name st4 et4 speaker desc
    hn2 hnv hst het hs2 hsv hd2 hdv]
  rw [if_neg (by omega)]

theorem serializeEvent_length (e : Event) (st4 et4 : List Nat) :
    (serializeEvent e st4 et4).length =
      1 + e.event_name.length + st4.length + et4.length + 1 +
        e.speaker_name.length + 2 + e.description.length := by
  simp [serializeEvent, toBytes2]
  omega

theorem save_valid_eq (m : Mem) (e : Event) (address : Nat)
    (hn : e.event_name.length ≤ 50) (hs : e.speaker_name.length ≤ 50)
    (hd : e.description.length ≤ 138)
    (h1 : 0 ≤ e.start_time) (h2 : e.start_time < 4294967296)
    (h3 : 0 ≤ e.end_time) (h4 : e.end_time < 4294967296) :
    save_event_to_eeprom (fun _ => true) m e address
      = (memWrite m address
          (serializeEvent e (toBytes4 e.start_time.toNat) (toBytes4 e.end_time.toNat)),
         SaveResult.completed true) := by
  have d1 : (e.event_name.length > 50) = False := eq_false (by omega)
  have d2 : (e.speaker_name.length > 50) = False := eq_false (by omega)
  have d3 : (e.description.length > 138) = False := eq_false (by omega)
  have hlen :
      ((serializeEvent e (toBytes4 e.start_time.toNat) (toBytes4 e.end_time.toNat)).length
        > 250) = False := by
    rw [serializeEvent_length]
    exact eq_false (by simp [toBytes4]; omega)
  have hread : read_bytes_from_eeprom
      (memWrite m address
        (serializeEvent e (toBytes4 e.start_time.toNat) (toBytes4 e.end_time.toNat)))
      address
      (serializeEvent e (toBytes4 e.start_time.toNat) (toBytes4 e.end_time.toNat)).length
      = serializeEvent e (toBytes4 e.start_time.toNat) (toBytes4 e.end_time.toNat) :=
    read_seg_at m address address _ []
      (serializeEvent e (toBytes4 e.start_time.toNat) (toBytes4 e.end_time.toNat)) [] _
      (by simp) (by simp) rfl
  simp only [save_event_to_eeprom, d1, d2, d3, toBytes4_some _ h1 h2,
    toBytes4_some _ h3 h4, hlen, if_false, write_bytes_true, hread, beq_self_eq_true,
    ite_false]

theorem roundtrip_general (m : Mem) (e : Event) (address : Nat)
    (hn1 : e.event_name.length ≠ 0) (hn2 : e.event_name.length ≤ 50)
    (hnv : utf8Valid e.event_name = true)
    (hs1 : e.speaker_name.length ≠ 0) (hs2 : e.speaker_name.length ≤ 50)
    (hsv : utf8Valid e.speaker_name = true)
    (hd1 : e.description.length ≠ 0) (hd2 : e.description.length ≤ 138)
    (hdv : utf8Valid e.description = true)
    (h1 : 0 ≤ e.start_time) (h2 : e.start_time < 4294967296)
    (h3 : 0 ≤ e.end_time) (h4 : e.end_time < 4294967296) :
    load_event_from_eeprom
      (save_event_to_eeprom (fun _ => true) m e address).1 address = some e := by
  rw [save_valid_eq m e address hn2 hs2 hd2 h1 h2 h3 h4]
  have h := load_of_memWrite m address e.event_name
    (toBytes4 e.start_time.toNat) (toBytes4 e.end_time.toNat)
    e.speaker_name e.description hn1 hn2 hnv (toBytes4_length _) (toBytes4_length _)
    hs1 hs2 hsv hd1 hd2 hdv
  simp only [serializeEvent, List.append_assoc]
  rw [h]
  rw [fromBytesBE_toBytes4 _ (by omega), fromBytesBE_toBytes4 _ (by omega)]
  rw [Int.toNat_of_nonneg h1, Int.toNat_of_nonneg h3]

theorem load_none_of_first_byte (m : Mem) (address : Nat)
    (h : m address = 255 ∨ m address = 0 ∨ m address > 50) :
    load_event_from_eeprom m address = none := by
  rw [load_event_from_eeprom]
  simp only [read_one, List.getD_cons_zero]
  by_cases h255 : m address = 255
  · rw [if_pos h255]
  · rw [if_neg h255]
    rcases h with h | h | h
    · exact absurd h h255
    · rw [if_pos (Or.inl h)]
    · rw [if_pos (Or.inr h)]

theorem writeChunksLoop_halt (oracle : Nat → Bool) (fuel k : Nat) (m : Mem)
    (address b : Nat) (rest : List Nat) (h : oracle k = false) :
    writeChunksLoop oracle (fuel + 1) k m address (b :: rest)
      = (m, [Msg.failedWrite]) := by
  rw [writeChunksLoop]
  simp [h]

theorem save_reaches_completed (oracle : Nat → Bool) (m : Mem) (e : Event)
    (address : Nat)
    (hn : e.event_name.length ≤ 50) (hs : e.speaker_name.length ≤ 50)
    (hd : e.description.length ≤ 138)
    (h1 : 0 ≤ e.start_time) (h2 : e.start_time < 4294967296)
    (h3 : 0 ≤ e.end_time) (h4 : e.end_time < 4294967296) :
    ∃ b, (save_event_to_eeprom oracle m e address).2 = SaveResult.completed b := by
  have d1 : (e.event_name.length > 50) = False := eq_false (by omega)
  have d2 : (e.speaker_name.length > 50) = False := eq_false (by omega)
  have d3 : (e.description.length > 138) = False := eq_false (by omega)
  have hlen :
      ((serializeEvent e (toBytes4 e.start_time.toNat) (toBytes4 e.end_time.toNat)).length
        > 250) = False := by
    rw [serializeEvent_length]
    exact eq_false (by simp [toBytes4]; omega)
  simp only [save_event_to_eeprom, d1, d2, d3, toBytes4_some _ h1 h2,
    toBytes4_some _ h3 h4, hlen, if_false]
  exact ⟨_, rfl⟩

theorem save_invalid_no_write (oracle : Nat → Bool) (m : Mem) (e : Event)
    (address : Nat)
    (h : e.event_name.length > 50 ∨ e.speaker_name.length > 50 ∨
      e.description.length > 138) :
    (save_event_to_eeprom oracle m e address).1 = m ∧
      ∀ b, (save_event_to_eeprom oracle m e address).2 ≠ SaveResult.completed b := by
  rw [save_event_to_eeprom]
  by_cases hn : e.event_name.length > 50
  · rw [if_pos hn]
    exact ⟨rfl, by intro b hb; cases hb⟩
  · rw [if_neg hn]
    cases hst : toBytes4? e.start_time with
    | none => exact ⟨rfl, by intro b hb; cases hb⟩
    | some st4 =>
      cases het : toBytes4? e.end_time with
      | none => exact ⟨rfl, by intro b hb; cases hb⟩
      | some et4 =>
        dsimp only
        by_cases hs : e.speaker_name.length > 50
        · rw [if_pos hs]
          exact ⟨rfl, by intro b hb; cases hb⟩
        · rw [if_neg hs]
          have hd : e.description.length > 138 := by
            rcases h with h | h | h
            · exact absurd h hn
            · exact absurd h hs
            · exact h
          rw [if_pos hd]
          exact ⟨rfl, by intro b hb; cases hb⟩

theorem save_overflow (oracle : Nat → Bool) (m : Mem) (e : Event) (address : Nat)
    (hn : e.event_name.length ≤ 50)
    (h : e.start_time < 0 ∨ 4294967296 ≤ e.start_time ∨
      e.end_time < 0 ∨ 4294967296 ≤ e.end_time) :
    save_event_to_eeprom oracle m e address = (m, SaveResult.overflowError) := by
  rw [save_event_to_eeprom, if_neg (by omega)]
  by_cases hst : 0 ≤ e.start_time ∧ e.start_time < 4294967296
  · rw [toBytes4_some _ hst.1 hst.2]
    have hetn : toBytes4? e.end_time = none := by
      rw [toBytes4?, if_neg (by rcases h with h | h | h | h <;> omega)]
    rw [hetn]
  · have hstn : toBytes4? e.start_time = none := by
      rw [toBytes4?, if_neg hst]
    rw [hstn]

theorem wipe_strokes_apply : ∀ (n : Nat), n ≤ 128 → ∀ (m : Mem) (a : Nat),
    ((List.range n).foldl
      (fun mm j =>
        let addr := j * PAGE_SIZE
        let remaining := EEPROM_SIZE - addr
        let chunk_size := if PAGE_SIZE ≤ remaining then PAGE_SIZE else remaining
        (write_bytes_to_eeprom (fun _ => true) mm addr
          (List.replicate chunk_size 0xFF)).1)
      m) a
    = if a < n * PAGE_SIZE then 255 else m a := by
  intro n
  induction n with
  | zero => intro _ m a; simp
  | succ n ih =>
    intro hn m a
    rw [List.range_succ, List.foldl_append, List.foldl_cons, List.foldl_nil]
    dsimp only
    have h32 : PAGE_SIZE ≤ EEPROM_SIZE - n * PAGE_SIZE := by
      simp only [PAGE_SIZE, EEPROM_SIZE]
      omega
    rw [if_pos h32, write_bytes_true]
    dsimp only
    rw [memWrite_apply]
    rw [ih (by omega)]
    simp only [List.length_replicate, PAGE_SIZE]
    by_cases hcase : n * 32 ≤ a ∧ a - n * 32 < 32
    · rw [if_pos hcase]
      rw [List.getD_eq_getElem?_getD, List.getElem?_replicate, if_pos hcase.2]
      rw [if_pos (by omega)]
      rfl
    · rw [if_neg hcase]
      by_cases hlt : a < n * 32
      · rw [if_pos hlt, if_pos (by omega)]
      · rw [if_neg hlt, if_neg (by omega)]

theorem wipe_apply (m : Mem) (a : Nat) :
    wipe_eeprom (fun _ => true) m a = if a < 4096 then 255 else m a := by
  rw [wipe_eeprom]
  have h128 : (EEPROM_SIZE + PAGE_SIZE - 1) / PAGE_SIZE = 128 := rfl
  rw [h128, wipe_strokes_apply 128 (by omega) m a]
  norm_num [PAGE_SIZE]

theorem list_all_events_mem (m : Mem) (s n sz i : Nat) (ev : Event) :
    (i, ev) ∈ list_all_events m s n sz ↔
      i < n ∧ load_event_from_eeprom m (s + i * sz) = some ev := by
  simp only [list_all_events, List.mem_filterMap, List.mem_range, Option.map_eq_some']
  constructor
  · rintro ⟨a, ha, ev', hload, heq⟩
    cases heq
    exact ⟨ha, hload⟩
  · rintro ⟨hi, hload⟩
    exact ⟨i, hi, ev, hload, rfl⟩

theorem filterMap_fst_sublist (g : Nat → Option Event) : ∀ l : List Nat,
    ((l.filterMap (fun a => (g a).map (fun ev => (a, ev)))).map Prod.fst).Sublist l := by
  intro l
  induction l with
  | nil => simp
  | cons a t ih =>
    rw [List.filterMap_cons]
    cases hga : g a with
    | none =>
      simp only [hga, Option.map_none']
      exact ih.cons a
    | some ev =>
      simp only [hga, Option.map_some']
      rw [List.map_cons]
      exact ih.cons₂ a

theorem list_all_events_fst_pairwise (m : Mem) (s n sz : Nat) :
    ((list_all_events m s n sz).map Prod.fst).Pairwise (· < ·) :=
  (List.pairwise_lt_range n).sublist
    (filterMap_fst_sublist (fun a => load_event_from_eeprom m (s + a * sz))
      (List.range n))

/-- Claim C1: for every Event whose name and speaker_name are valid UTF-8 byte
sequences of 1 to 50 bytes, whose description is a valid UTF-8 byte sequence
of 1 to 138 bytes, and whose start and end times lie in `[0, 2^32)`, loading
the slot written by a successful save returns an Event equal to the original
in all five fields. -/
theorem claim_roundtrip (m : Mem) (e : Event) (address : Nat)
    (hn1 : 1 ≤ e.event_name.length) (hn2 : e.event_name.length ≤ 50)
    (hnv : utf8Valid e.event_name = true)
    (hs1 : 1 ≤ e.speaker_name.length) (hs2 : e.speaker_name.length ≤ 50)
    (hsv : utf8Valid e.speaker_name = true)
    (hd1 : 1 ≤ e.description.length) (hd2 : e.description.length ≤ 138)
    (hdv : utf8Valid e.description = true)
    (h1 : 0 ≤ e.start_time) (h2 : e.start_time < 4294967296)
    (h3 : 0 ≤ e.end_time) (h4 : e.end_time < 4294967296) :
    load_event_from_eeprom
      (save_event_to_eeprom (fun _ => true) m e address).1 address = some e :=
  roundtrip_general m e address (by omega) hn2 hnv (by omega) hs2 hsv
    (by omega) hd2 hdv h1 h2 h3 h4

theorem claim_roundtrip_witness :
    load_event_from_eeprom
      (save_event_to_eeprom (fun _ => true) memErased ceremonyEvent 0).1 0
      = some ceremonyEvent :=
  claim_roundtrip memErased ceremonyEvent 0 (by decide) (by decide) (by decide)
    (by decide) (by decide) (by decide) (by decide) (by decide) (by decide)
    (by decide) (by decide) (by decide) (by decide)

/-- Claim C2 counterexample: with a transport on which every chunk write
fails, `save_event_to_eeprom` still reports the completed ("Event saved
successfully") outcome — `SaveResult.completed false`, not a transport
error — and the message log of `write_bytes_to_eeprom` shows the failure
print followed by its unconditional success print.  This refutes the claim
that a failed chunked write surfaces a TransportError value to the caller. -/
theorem claim_chunkfail_counterexample :
    (save_event_to_eeprom (fun _ => false) memErased ceremonyEvent 0).2
      = SaveResult.completed false ∧
    (write_bytes_to_eeprom (fun _ => false) memErased 0
        (serializeEvent ceremonyEvent (toBytes4 1730649600) (toBytes4 1730653200))).2
      = [Msg.failedWrite, Msg.bytesWritten] := by decide

/-- Claim C2 amended: if a chunk write fails, the remaining chunks are not
attempted (the loop returns immediately, leaving memory as it was before the
failing chunk); but no TransportError is reported: whenever validation and
timestamp encoding succeed, `save_event_to_eeprom` reaches the completed
outcome regardless of the transport oracle. -/
theorem claim_chunkfail_amended :
    (∀ (oracle : Nat → Bool) (fuel k : Nat) (m : Mem) (address b : Nat)
      (rest : List Nat), oracle k = false →
      writeChunksLoop oracle (fuel + 1) k m address (b :: rest)
        = (m, [Msg.failedWrite])) ∧
    (∀ (oracle : Nat → Bool) (m : Mem) (e : Event) (address : Nat),
      e.event_name.length ≤ 50 → e.speaker_name.length ≤ 50 →
      e.description.length ≤ 138 →
      0 ≤ e.start_time → e.start_time < 4294967296 →
      0 ≤ e.end_time → e.end_time < 4294967296 →
      ∃ b, (save_event_to_eeprom oracle m e address).2 = SaveResult.completed b) :=
  ⟨fun oracle fuel k m address b rest h =>
      writeChunksLoop_halt oracle fuel k m address b rest h,
   fun oracle m e address hn hs hd h1 h2 h3 h4 =>
      save_reaches_completed oracle m e address hn hs hd h1 h2 h3 h4⟩

theorem claim_chunkfail_amended_witness :
    writeChunksLoop (fun _ => false) 1 0 memErased 0 [7]
      = (memErased, [Msg.failedWrite]) ∧
    ∃ b, (save_event_to_eeprom (fun _ => false) memErased ceremonyEvent 0).2
      = SaveResult.completed b :=
  ⟨claim_chunkfail_amended.1 (fun _ => false) 0 0 memErased 0 7 [] rfl,
   claim_chunkfail_amended.2 (fun _ => false) memErased ceremonyEvent 0
     (by decide) (by decide) (by decide) (by decide) (by decide) (by decide)
     (by decide)⟩

/-- Claim C3: an Event with a 50-byte name, 50-byte speaker_name and
138-byte description serializes to exactly 250 bytes and is accepted by
save; the otherwise-identical Event with a 139-byte description is rejected
(`descriptionTooLong`, the "Description too long!" early return) with the
memory unchanged. -/
theorem claim_exact_fit (m : Mem) (e : Event) (address : Nat) (d139 : List Nat)
    (hn : e.event_name.length = 50) (hs : e.speaker_name.length = 50)
    (hd : e.description.length = 138)
    (h1 : 0 ≤ e.start_time) (h2 : e.start_time < 4294967296)
    (h3 : 0 ≤ e.end_time) (h4 : e.end_time < 4294967296)
    (h139 : d139.length = 139) :
    (serializeEvent e (toBytes4 e.start_time.toNat)
        (toBytes4 e.end_time.toNat)).length = 250 ∧
    (save_event_to_eeprom (fun _ => true) m e address).2
      = SaveResult.completed true ∧
    save_event_to_eeprom (fun _ => true) m { e with description := d139 } address
      = (m, SaveResult.descriptionTooLong) := by
  obtain ⟨nm, st, et, sp, d⟩ := e
  dsimp only at hn hs hd h1 h2 h3 h4
  refine ⟨?_, ?_, ?_⟩
  · rw [serializeEvent_length]
    simp only [toBytes4_length]
    omega
  · rw [save_valid_eq _ _ address (by dsimp only; omega) (by dsimp only; omega)
      (by dsimp only; omega) h1 h2 h3 h4]
  · rw [save_event_to_eeprom]
    dsimp only
    rw [if_neg (by omega), toBytes4_some _ h1 h2, toBytes4_some _ h3 h4]
    dsimp only
    rw [if_neg (by omega), if_pos (by omega)]

set_option maxRecDepth 8192 in
theorem claim_exact_fit_witness :
    (serializeEvent exactFitEvent (toBytes4 exactFitEvent.start_time.toNat)
        (toBytes4 exactFitEvent.end_time.toNat)).length = 250 ∧
    (save_event_to_eeprom (fun _ => true) memErased exactFitEvent 0).2
      = SaveResult.completed true ∧
    save_event_to_eeprom (fun _ => true) memErased
        { exactFitEvent with description := List.replicate 139 68 } 0
      = (memErased, SaveResult.descriptionTooLong) :=
  claim_exact_fit memErased exactFitEvent 0 (List.replicate 139 68)
    (by decide) (by decide) (by decide) (by decide) (by decide) (by decide)
    (by decide) (by decide)

/-- Claim C4: for every slot content, a first byte of 0xFF makes load
return `none` (empty slot) regardless of all subsequent bytes, and a first
byte of 0 or any value above 50 likewise makes load return `none`. -/
theorem claim_first_byte (m : Mem) (address : Nat) :
    (m address = 0xFF → load_event_from_eeprom m address = none) ∧
    ((m address = 0 ∨ m address > 50) → load_event_from_eeprom m address = none) :=
  ⟨fun h => load_none_of_first_byte m address (Or.inl h),
   fun h => load_none_of_first_byte m address (Or.inr h)⟩

theorem claim_first_byte_witness :
    load_event_from_eeprom memErased 0 = none ∧
    load_event_from_eeprom (fun _ => 0) 0 = none ∧
    load_event_from_eeprom (fun _ => 51) 0 = none :=
  ⟨(claim_first_byte memErased 0).1 (by decide),
   (claim_first_byte (fun _ => 0) 0).2 (Or.inl (by decide)),
   (claim_first_byte (fun _ => 51) 0).2 (Or.inr (by decide))⟩

/-- Claim C5 counterexample: an Event with a zero-length name is accepted
by `save_event_to_eeprom` (result `completed true`) and bytes are written —
the byte at the slot address changes from the erased 0xFF to the length 0 —
refuting the claim that a zero-length text field is rejected with a
validation error and no write performed. -/
theorem claim_min_length_counterexample :
    (save_event_to_eeprom (fun _ => true) memErased emptyNameEvent 0).2
      = SaveResult.completed true ∧
    (save_event_to_eeprom (fun _ => true) memErased emptyNameEvent 0).1 0 = 0 ∧
    memErased 0 = 255 := by decide

/-- Claim C5 amended: an Event within the upper byte bounds in which the
name, speaker_name or description is empty is accepted by save and written
to the device; the minimum length of 1 is enforced only by load, which
returns `none` on the zero length field. -/
theorem claim_min_length_amended (m : Mem) (e : Event) (address : Nat)
    (hn2 : e.event_name.length ≤ 50) (hnv : utf8Valid e.event_name = true)
    (hs2 : e.speaker_name.length ≤ 50) (hsv : utf8Valid e.speaker_name = true)
    (hd2 : e.description.length ≤ 138) (hdv : utf8Valid e.description = true)
    (h1 : 0 ≤ e.start_time) (h2 : e.start_time < 4294967296)
    (h3 : 0 ≤ e.end_time) (h4 : e.end_time < 4294967296)
    (h0 : e.event_name.length = 0 ∨ e.speaker_name.length = 0 ∨
      e.description.length = 0) :
    (save_event_to_eeprom (fun _ => true) m e address).2
      = SaveResult.completed true ∧
    load_event_from_eeprom
      (save_event_to_eeprom (fun _ => true) m e address).1 address = none := by
  rw [save_valid_eq m e address hn2 hs2 hd2 h1 h2 h3 h4]
  refine ⟨rfl, ?_⟩
  simp only [serializeEvent, List.append_assoc]
  rw [load_of_memWrite_cases m address e.event_name _ _ e.speaker_name
    e.description hn2 hnv (toBytes4_length _) (toBytes4_length _) hs2 hsv hd2 hdv]
  rw [if_pos h0]

theorem claim_min_length_amended_witness :
    (save_event_to_eeprom (fun _ => true) memErased emptyNameEvent 0).2
      = SaveResult.completed true ∧
    load_event_from_eeprom
      (save_event_to_eeprom (fun _ => true) memErased emptyNameEvent 0).1 0
      = none :=
  claim_min_length_amended memErased emptyNameEvent 0 (by decide) (by decide)
    (by decide) (by decide) (by decide) (by decide) (by decide) (by decide)
    (by decide) (by decide) (Or.inl (by decide))

/-- Claim C6: for every Event rejected by the field-bound validation of
save (name or speaker over 50 bytes, or description over 138 bytes), save
performs zero transport writes — the memory is returned unchanged — and the
result is never the completed outcome. -/
theorem claim_validation_no_write (oracle : Nat → Bool) (m : Mem) (e : Event)
    (address : Nat)
    (h : e.event_name.length > 50 ∨ e.speaker_name.length > 50 ∨
      e.description.length > 138) :
    (save_event_to_eeprom oracle m e address).1 = m ∧
    ∀ b, (save_event_to_eeprom oracle m e address).2 ≠ SaveResult.completed b :=
  save_invalid_no_write oracle m e address h

set_option maxRecDepth 8192 in
theorem claim_validation_no_write_witness :
    (save_event_to_eeprom (fun _ => true) memErased longNameEvent 0).1 = memErased ∧
    ∀ b, (save_event_to_eeprom (fun _ => true) memErased longNameEvent 0).2
      ≠ SaveResult.completed b :=
  claim_validation_no_write (fun _ => true) memErased longNameEvent 0
    (Or.inl (by decide))

/-- Claim C7: each wipe stroke is a buffer of 0xFF bytes of length
`min(PAGE_SIZE, EEPROM_SIZE - offset)`; after a wipe in which every stroke
succeeds, every byte of the 4096-byte device is 0xFF and load returns
`none` for every slot index in `0..15`. -/
theorem claim_wipe (m : Mem) :
    (∀ j : Nat, (if PAGE_SIZE ≤ EEPROM_SIZE - j * PAGE_SIZE then PAGE_SIZE
        else EEPROM_SIZE - j * PAGE_SIZE)
      = min PAGE_SIZE (EEPROM_SIZE - j * PAGE_SIZE)) ∧
    (∀ a, a < EEPROM_SIZE → wipe_eeprom (fun _ => true) m a = 0xFF) ∧
    (∀ i, i < 16 → load_event_from_eeprom (wipe_eeprom (fun _ => true) m)
      (i * 250) = none) := by
  refine ⟨?_, ?_, ?_⟩
  · intro j
    exact (Nat.min_def).symm
  · intro a ha
    rw [wipe_apply, if_pos (by simpa [EEPROM_SIZE] using ha)]
  · intro i hi
    apply load_none_of_first_byte
    left
    rw [wipe_apply, if_pos (by omega)]

theorem claim_wipe_witness :
    wipe_eeprom (fun _ => true) (fun _ => 0) 4095 = 0xFF ∧
    load_event_from_eeprom (wipe_eeprom (fun _ => true) (fun _ => 0))
      (15 * 250) = none :=
  ⟨(claim_wipe (fun _ => 0)).2.1 4095 (by decide),
   (claim_wipe (fun _ => 0)).2.2 15 (by decide)⟩

/-- Claim C8: `list_all_events` emits exactly the pairs `(i, event)` with
`i < max_events` and load succeeding at `start_address + i * event_size`;
the emitted indices are strictly increasing; and in the concrete scenario
with events saved at slots 0 and 2 and slot 1 erased, listing three slots
yields exactly the two events in index order, omitting slot 1. -/
theorem claim_listing :
    (∀ (m : Mem) (s n sz i : Nat) (ev : Event),
      (i, ev) ∈ list_all_events m s n sz ↔
        i < n ∧ load_event_from_eeprom m (s + i * sz) = some ev) ∧
    (∀ (m : Mem) (s n sz : Nat),
      ((list_all_events m s n sz).map Prod.fst).Pairwise (· < ·)) ∧
    list_all_events demoMem 0 3 250 = [(0, eventA), (2, eventB)] := by
  refine ⟨?_, ?_, ?_⟩
  · intro m s n sz i ev
    exact list_all_events_mem m s n sz i ev
  · intro m s n sz
    exact list_all_events_fst_pairwise m s n sz
  · decide

theorem claim_listing_witness :
    ((0, eventA) ∈ list_all_events demoMem 0 3 250 ↔
      0 < 3 ∧ load_event_from_eeprom demoMem (0 + 0 * 250) = some eventA) ∧
    ((list_all_events demoMem 0 3 250).map Prod.fst).Pairwise (· < ·) :=
  ⟨claim_listing.1 demoMem 0 3 250 0 eventA, claim_listing.2.1 demoMem 0 3 250⟩

/-- Claim C9 counterexample: the Ceremony event does not serialize to 34
bytes — its description "Badges!" is 7 bytes, not 8. -/
theorem claim_concrete_counterexample :
    (serializeEvent ceremonyEvent (toBytes4 ceremonyEvent.start_time.toNat)
        (toBytes4 ceremonyEvent.end_time.toNat)).length ≠ 34 := by decide

/-- Claim C9 amended: the Event ("Ceremony", 1730649600, 1730653200,
"Elliot", "Badges!") serializes to exactly 33 bytes (1+8+4+4+1+6+2+7), and
saving it at slot 0 then reloading slot 0 yields an Event with field values
identical to the original. -/
theorem claim_concrete_amended :
    (serializeEvent ceremonyEvent (toBytes4 ceremonyEvent.start_time.toNat)
        (toBytes4 ceremonyEvent.end_time.toNat)).length
      = 1 + 8 + 4 + 4 + 1 + 6 + 2 + 7 ∧
    load_event_from_eeprom
      (save_event_to_eeprom (fun _ => true) memErased ceremonyEvent 0).1 0
      = some ceremonyEvent := by decide

/-- Claim C10: save performs no range validation on the timestamps before
`to_bytes(4, 'big')`; for every Event passing the earlier name-length check
whose start_time or end_time is negative or at least `2^32`, save ends in
the uncaught-OverflowError outcome instead of a validation error, with no
write performed. -/
theorem claim_overflow (oracle : Nat → Bool) (m : Mem) (e : Event) (address : Nat)
    (hn : e.event_name.length ≤ 50)
    (h : e.start_time < 0 ∨ 4294967296 ≤ e.start_time ∨
      e.end_time < 0 ∨ 4294967296 ≤ e.end_time) :
    save_event_to_eeprom oracle m e address = (m, SaveResult.overflowError) :=
  save_overflow oracle m e address hn h

theorem claim_overflow_witness :
    save_event_to_eeprom (fun _ => true) memErased negTimeEvent 0
      = (memErased, SaveResult.overflowError) :=
  claim_overflow (fun _ => true) memErased negTimeEvent 0 (by decide)
    (Or.inl (by decide))
